import Mathlib

/-!
Verification of the core of `src/components/SimpleEditor.tsx`:
the flat path-to-content mapping to nested file tree conversion
(`toFileTree`), the document store update handlers (`onChange`,
`onScroll`), and the shell handshake protocol of the `run` function
(marker scanning, input gating, bootstrap command).
-/

namespace SimpleEditor

/-! ## Data model -/

/-- Scroll position of an editor surface (a pair of coordinates; the
handlers treat it as an opaque value). -/
structure ScrollPosition where
  line : Nat
  column : Nat
deriving DecidableEq, Repr

/-- `EditorDocument` record: `{ filePath, loading, value, scroll? }`. -/
structure EditorDocument where
  filePath : String
  loading : Bool
  value : String
  scroll : Option ScrollPosition := none
deriving DecidableEq, Repr

/-- A node of the `FileSystemTree` consumed by the container:
either `{ file: { contents } }` or `{ directory: children }`.
Children form a mapping from names to nodes (a JS object used as a map;
key insertion order is irrelevant to its meaning as a mapping). -/
inductive FSNode : Type where
  | file (contents : String)
  | directory (children : String → Option FSNode)

/-- A `FileSystemTree` object: a mapping from entry names to nodes. -/
abbrev FileSystemTree : Type := String → Option FSNode

/-- `currentTree[name] = v`: update one key of a tree object. -/
def updT (t : FileSystemTree) (k : String) (v : FSNode) : FileSystemTree :=
  fun n => if n = k then some v else t n

/-- The fresh empty object `{}`. -/
def emptyTree : FileSystemTree := fun _ => none

/-! ## PathTree builder (`toFileTree`) -/

/-- The inner loop of `toFileTree` for one path already split into
segments: walk or create directory nodes for all but the last segment
and attach a file node at the last.  Walking into an existing file node
is the JS runtime error (reading `.directory` of a file node yields
`undefined` and the next access throws), embedded as `none`.
An empty segment list leaves the tree unchanged (the JS loop body never
runs, so no node is attached). -/
def insertSegs : FileSystemTree → List String → String → Option FileSystemTree
  | t, [], _ => some t
  | t, [name], contents => some (updT t name (.file contents))
  | t, name :: seg2 :: rest, contents =>
    match t name with
    | some (.file _) => none
    | some (.directory d) =>
      (insertSegs d (seg2 :: rest) contents).map fun d2 => updT t name (.directory d2)
    | none =>
      (insertSegs emptyTree (seg2 :: rest) contents).map fun d2 => updT t name (.directory d2)

/-- `filePath.split('/')` for the one-character separator: the pieces
between occurrences of `/`, empties included. -/
def splitSlash : List Char → List (List Char)
  | [] => [[]]
  | c :: rest =>
    if c = '/' then [] :: splitSlash rest
    else
      match splitSlash rest with
      | [] => [[c]]
      | piece :: pieces => (c :: piece) :: pieces

/-- `filePath.split('/').filter(segment => segment)`: split on `/` and
drop the empty segments. -/
def segsOf (path : String) : List String :=
  ((splitSlash path.data).filter fun s => s != ([] : List Char)).map String.mk

/-- `toFileTree(files)`: fold every `(path, document)` entry, in the
iteration order of the record, into an initially empty tree, writing the
document value as the file contents.  A thrown JS error aborts the whole
call (`none`). -/
def toFileTree (files : List (String × EditorDocument)) : Option FileSystemTree :=
  files.foldlM (fun t entry => insertSegs t (segsOf entry.1) entry.2.value) emptyTree

/-- Proof-side decomposition of one `insertSegs` step: what replaces the
node currently sitting at the head segment. -/
def insertAt (node : Option FSNode) : List String → String → Option FSNode
  | [], contents => some (.file contents)
  | seg :: rest, contents =>
    match node with
    | some (.file _) => none
    | some (.directory d) => (insertSegs d (seg :: rest) contents).map .directory
    | none => (insertSegs emptyTree (seg :: rest) contents).map .directory

/-! ## Document store (`onChange`, `onScroll`) -/

/-- Lookup `docs[path]` in a record modelled as its ordered entry list. -/
def getDoc : List (String × EditorDocument) → String → Option EditorDocument
  | [], _ => none
  | (k, v) :: rest, p => if p = k then some v else getDoc rest p

/-- The spread `{...prev, [k]: v}`: an existing key keeps its position
and receives the new value, a new key is appended at the end. -/
def setDoc : List (String × EditorDocument) → String → EditorDocument → List (String × EditorDocument)
  | [], k, v => [(k, v)]
  | (k0, v0) :: rest, k, v =>
    if k = k0 then (k0, v) :: rest else (k0, v0) :: setDoc rest k v

/-- `{...prevDocuments[selectedFile], value: content}`.  When the record
is absent the JS spread of `undefined` leaves the other fields absent;
the claims only exercise the present-record branch, and the absent
branch fills the remaining fields with defaults. -/
def applyValue (doc : Option EditorDocument) (path content : String) : EditorDocument :=
  match doc with
  | some d => { d with value := content }
  | none => { filePath := path, loading := false, value := content, scroll := none }

/-- `{...prevDocuments[selectedFile], scroll}` (same caveat for an
absent record). -/
def applyScroll (doc : Option EditorDocument) (path : String) (scroll : ScrollPosition) :
    EditorDocument :=
  match doc with
  | some d => { d with scroll := some scroll }
  | none => { filePath := path, loading := false, value := "", scroll := some scroll }

/-- Store plus the ordered log of dispatched `fs.writeFile` calls. -/
structure StoreState where
  documents : List (String × EditorDocument)
  fsWrites : List (String × String)
deriving DecidableEq, Repr

/-- `onChange({content})`: synchronously replace the selected document
value in the store, then dispatch one asynchronous
`webcontainer.fs.writeFile(selectedFile, content)` (appended to the
write log in dispatch order, after the store field is already new). -/
def onChange (st : StoreState) (selectedFile content : String) : StoreState :=
  { documents :=
      setDoc st.documents selectedFile
        (applyValue (getDoc st.documents selectedFile) selectedFile content),
    fsWrites := st.fsWrites ++ [(selectedFile, content)] }

/-- `onScroll(scroll)`: replace the scroll field of the selected
document record. -/
def onScroll (docs : List (String × EditorDocument)) (selectedFile : String)
    (scroll : ScrollPosition) : List (String × EditorDocument) :=
  setDoc docs selectedFile (applyScroll (getDoc docs selectedFile) selectedFile scroll)

/-! ## Shell handshake (`run`) -/

/-- External events delivered to the handshake: an output chunk from the
process (`process.output`), or a keystroke from the terminal
(`terminal.onData`). -/
inductive Event where
  | out (data : String)
  | key (data : String)
deriving DecidableEq, Repr

/-- One write to the process input sink (`shellWriter.write`), tagged by
the call site that issued it; the byte stream itself is the `data`
projection. -/
inductive InputWrite where
  | bootstrap (data : String)
  | keystroke (data : String)
deriving DecidableEq, Repr

/-- The bytes of one input-sink write. -/
def InputWrite.data : InputWrite → String
  | .bootstrap d => d
  | .keystroke d => d

/-- Session state: the `isInteractive` flag, the ordered writes to the
process input sink, and the chunks forwarded to the display sink
(`terminal.write`). -/
structure ShellState where
  interactive : Bool
  inputSink : List InputWrite
  displaySink : List String
deriving DecidableEq, Repr

/-- State right after the writer and listeners are installed. -/
def initShell : ShellState := { interactive := false, inputSink := [], displaySink := [] }

/-- The bootstrap command written once upon readiness. -/
def bootstrapCmd : String := "npm install && npm start\n"

/-- The literal head of the readiness marker: ESC `]654;`. -/
def oscPre : List Char := ['\x1b', ']', '6', '5', '4', ';']

/-- The scan `data.match(/\x1b\]654;([^\x07]+)\x07/)`: the capture of the
leftmost match, scanning start positions left to right; at a position the
head must match literally, then one or more non-BEL characters (greedy,
so everything up to the next BEL), then BEL. -/
def findOSC : List Char → Option (List Char)
  | [] => none
  | c :: rest =>
    if oscPre.isPrefixOf (c :: rest) then
      let after := (c :: rest).drop oscPre.length
      let status := after.takeWhile fun ch => ch != '\x07'
      if status.isEmpty || (after.dropWhile fun ch => ch != '\x07').isEmpty then
        findOSC rest
      else
        some status
    else
      findOSC rest

/-- One step of the handshake.  An output chunk is scanned only while not
yet interactive; on a marker whose status is the literal `interactive`
the flag flips and the readiness promise resolves, whose awaiting
continuation (a microtask, so it runs before any further event) writes
the bootstrap command; every chunk is forwarded to the display sink.
A keystroke is written to the input sink only while interactive. -/
def stepEv (st : ShellState) : Event → ShellState
  | .out data =>
    if st.interactive then
      { st with displaySink := st.displaySink ++ [data] }
    else
      match findOSC data.data with
      | some s =>
        if s = "interactive".data then
          { interactive := true,
            inputSink := st.inputSink ++ [.bootstrap bootstrapCmd],
            displaySink := st.displaySink ++ [data] }
        else
          { st with displaySink := st.displaySink ++ [data] }
      | none => { st with displaySink := st.displaySink ++ [data] }
  | .key data =>
    if st.interactive then
      { st with inputSink := st.inputSink ++ [.keystroke data] }
    else
      st

/-- Run the handshake from a state over a sequence of events. -/
def foldSteps (st : ShellState) (evs : List Event) : ShellState := evs.foldl stepEv st

/-- Run a whole session trace from the initial state. -/
def runTrace (evs : List Event) : ShellState := foldSteps initShell evs

/-- The keystrokes of a trace delivered while the interactive flag is
already set, in delivery order. -/
def acceptedKeys : ShellState → List Event → List String
  | _, [] => []
  | st, e :: rest =>
    (match e with
     | .key d => if st.interactive then [d] else []
     | .out _ => []) ++ acceptedKeys (stepEv st e) rest

/-- The keystroke writes of the input sink. -/
def keyPayload : InputWrite → Option String
  | .keystroke d => some d
  | .bootstrap _ => none

/-- The bootstrap writes of the input sink. -/
def bootPayload : InputWrite → Option String
  | .bootstrap d => some d
  | .keystroke _ => none

/-- Whether `pat` occurs as a contiguous block somewhere in `l`. -/
def hasSub (pat : List Char) : List Char → Bool
  | [] => pat.isPrefixOf []
  | c :: rest => pat.isPrefixOf (c :: rest) || hasSub pat rest

/-- The full readiness marker as a character block. -/
def interactiveMarker : List Char := oscPre ++ "interactive".data ++ ['\x07']

/-- One entry handled by the `toFileTree` fold. -/
def insertEntry (t : FileSystemTree) (entry : String × EditorDocument) : Option FileSystemTree :=
  insertSegs t (segsOf entry.1) entry.2.value

/-- The builder precondition stated by the spec: no two entries collide,
i.e. neither segment list of a pair of paths is a prefix of the other
(this excludes duplicate paths and a path used both as a file and as a
directory). -/
def noCollisions (files : List (String × EditorDocument)) : Prop :=
  files.Pairwise fun e1 e2 =>
    (segsOf e1.1).isPrefixOf (segsOf e2.1) = false ∧
      (segsOf e2.1).isPrefixOf (segsOf e1.1) = false

instance (files : List (String × EditorDocument)) : Decidable (noCollisions files) :=
  List.instDecidablePairwise files

/-- A concrete document record for witness checks. -/
def sampleDoc (path contents : String) : EditorDocument :=
  { filePath := path, loading := false, value := contents }

/-- The tree built from the C8 example mapping. -/
def exampleTree : FileSystemTree :=
  updT (updT emptyTree "src" (.directory (updT emptyTree "index.js" (.file "A"))))
    "pkg.json" (.file "B")

/-! ## Lemmas about tree updates and insertion -/

theorem updT_self (t : FileSystemTree) (k : String) (v : FSNode) : updT t k v k = some v := by
  simp [updT]

theorem updT_other (t : FileSystemTree) (k : String) (v : FSNode) {n : String} (h : n ≠ k) :
    updT t k v n = t n := by
  simp [updT, h]

theorem updT_overwrite (t : FileSystemTree) (k : String) (v w : FSNode) :
    updT (updT t k v) k w = updT t k w := by
  funext n
  by_cases h : n = k <;> simp [updT, h]

theorem updT_comm (t : FileSystemTree) {a b : String} (h : a ≠ b) (v w : FSNode) :
    updT (updT t a v) b w = updT (updT t b w) a v := by
  funext n
  by_cases hb : n = b
  · have ha : n ≠ a := fun hna => h (hna.symm.trans hb)
    simp [updT, hb, ha, Ne.symm h, h]
  · by_cases ha : n = a <;> simp [updT, hb, ha, Ne.symm h, h]

theorem insertSegs_cons (t : FileSystemTree) (a : String) (sa : List String) (c : String) :
    insertSegs t (a :: sa) c = (insertAt (t a) sa c).map fun n => updT t a n := by
  cases sa with
  | nil => simp [insertSegs, insertAt]
  | cons b r =>
    cases h : t a with
    | none =>
      cases hi : insertSegs emptyTree (b :: r) c <;> simp [insertSegs, insertAt, h, hi]
    | some node =>
      cases node with
      | file cts => simp [insertSegs, insertAt, h]
      | directory d =>
        cases hi : insertSegs d (b :: r) c <;> simp [insertSegs, insertAt, h, hi]

theorem insertAt_some_cons (n : FSNode) (b : String) (r : List String) (c : String) :
    insertAt (some n) (b :: r) c =
      (match n with
       | .file _ => none
       | .directory d => (insertSegs d (b :: r) c).map FSNode.directory) := by
  cases n <;> simp [insertAt]

/-- Two insertions whose segment lists are not prefixes of one another
commute (as total computations, failure included). -/
theorem insert_comm (ca cb : String) :
    ∀ (sa sb : List String) (t : FileSystemTree),
      sa.isPrefixOf sb = false → sb.isPrefixOf sa = false →
      (insertSegs t sa ca).bind (fun u => insertSegs u sb cb)
        = (insertSegs t sb cb).bind (fun u => insertSegs u sa ca) := by
  intro sa
  induction sa with
  | nil => intro sb t h1 _h2; simp [List.isPrefixOf] at h1
  | cons a sa ih =>
    intro sb t h1 h2
    cases sb with
    | nil => simp [List.isPrefixOf] at h2
    | cons b sb =>
      by_cases hab : a = b
      · subst hab
        have h1' : sa.isPrefixOf sb = false := by
          simpa [List.isPrefixOf] using h1
        have h2' : sb.isPrefixOf sa = false := by
          simpa [List.isPrefixOf] using h2
        have hsa : sa ≠ [] := by
          intro h; subst h; simp [List.isPrefixOf] at h1'
        have hsb : sb ≠ [] := by
          intro h; subst h; simp [List.isPrefixOf] at h2'
        -- both paths descend through the entry at `a`
        have key : ∀ (d : FileSystemTree),
            insertAt (t a) sa ca = (insertSegs d sa ca).map FSNode.directory →
            insertAt (t a) sb cb = (insertSegs d sb cb).map FSNode.directory →
            (insertSegs t (a :: sa) ca).bind (fun u => insertSegs u (a :: sb) cb)
              = (insertSegs t (a :: sb) cb).bind (fun u => insertSegs u (a :: sa) ca) := by
          intro d hda hdb
          have hinner := ih sb d h1' h2'
          rw [insertSegs_cons t a sa ca, insertSegs_cons t a sb cb, hda, hdb]
          cases hA : insertSegs d sa ca with
          | none =>
            cases hB : insertSegs d sb cb with
            | none => simp
            | some y =>
              have : insertSegs y sa ca = none := by
                have := hinner
                rw [hA, hB] at this
                simpa using this.symm
              simp [insertSegs_cons, updT_self, insertAt_some_cons, hsa, this]
              cases sa with
              | nil => exact absurd rfl hsa
              | cons a2 sa2 => simp [insertAt_some_cons, this]
          | some x =>
            cases hB : insertSegs d sb cb with
            | none =>
              have : insertSegs x sb cb = none := by
                have := hinner
                rw [hA, hB] at this
                simpa using this
              simp
              cases sb with
              | nil => exact absurd rfl hsb
              | cons b2 sb2 =>
                simp [insertSegs_cons, updT_self, insertAt_some_cons, this]
            | some y =>
              have hxy : insertSegs x sb cb = insertSegs y sa ca := by
                have := hinner
                rw [hA, hB] at this
                simpa using this
              simp
              cases sb with
              | nil => exact absurd rfl hsb
              | cons b2 sb2 =>
                cases sa with
                | nil => exact absurd rfl hsa
                | cons a2 sa2 =>
                  rw [insertSegs_cons, insertSegs_cons, updT_self, updT_self,
                    insertAt_some_cons, insertAt_some_cons]
                  simp only []
                  rw [hxy]
                  cases hY : insertSegs y (a2 :: sa2) ca with
                  | none => simp
                  | some z => simp [updT_overwrite]
        cases hta : t a with
        | none =>
          refine key emptyTree ?_ ?_
          · cases sa with
            | nil => exact absurd rfl hsa
            | cons a2 sa2 => simp [insertAt, hta]
          · cases sb with
            | nil => exact absurd rfl hsb
            | cons b2 sb2 => simp [insertAt, hta]
        | some node =>
          cases node with
          | file cts =>
            cases sa with
            | nil => exact absurd rfl hsa
            | cons a2 sa2 =>
              cases sb with
              | nil => exact absurd rfl hsb
              | cons b2 sb2 => simp [insertSegs, hta]
          | directory d =>
            refine key d ?_ ?_
            · cases sa with
              | nil => exact absurd rfl hsa
              | cons a2 sa2 => simp [insertAt, hta]
            · cases sb with
              | nil => exact absurd rfl hsb
              | cons b2 sb2 => simp [insertAt, hta]
      · -- distinct head segments: updates have independent keys
        rw [insertSegs_cons t a sa ca, insertSegs_cons t b sb cb]
        cases hA : insertAt (t a) sa ca with
        | none =>
          cases hB : insertAt (t b) sb cb with
          | none => simp
          | some n2 =>
            simp [insertSegs_cons, updT_other _ _ _ hab, hA]
        | some n1 =>
          cases hB : insertAt (t b) sb cb with
          | none =>
            simp [insertSegs_cons, updT_other _ _ _ (Ne.symm hab), hB]
          | some n2 =>
            simp [insertSegs_cons, updT_other _ _ _ hab, updT_other _ _ _ (Ne.symm hab),
              hA, hB, updT_comm t hab]

/-! ## Permutation invariance of the builder -/

theorem toFileTree_eq_foldlM (files : List (String × EditorDocument)) :
    toFileTree files = files.foldlM insertEntry emptyTree := rfl

theorem foldIns_perm {l1 l2 : List (String × EditorDocument)} (hp : l1.Perm l2) :
    noCollisions l1 → ∀ t, l1.foldlM insertEntry t = l2.foldlM insertEntry t := by
  induction hp with
  | nil => intro _hv t; rfl
  | cons x _hp ih =>
    intro hv t
    have hv' : noCollisions _ := (List.pairwise_cons.mp hv).2
    simp only [List.foldlM_cons]
    cases hstep : insertEntry t x with
    | none => rfl
    | some t2 => simpa using ih hv' t2
  | swap x y l =>
    intro hv t
    have hxy := (List.pairwise_cons.mp hv).1 x (List.mem_cons_self x l)
    have hcomm := insert_comm y.2.value x.2.value (segsOf y.1) (segsOf x.1) t hxy.1 hxy.2
    simp only [List.foldlM_cons]
    show ((insertEntry t y).bind fun t1 => (insertEntry t1 x).bind fun t2 =>
        l.foldlM insertEntry t2)
      = (insertEntry t x).bind fun t1 => (insertEntry t1 y).bind fun t2 =>
        l.foldlM insertEntry t2
    rw [← Option.bind_assoc, ← Option.bind_assoc]
    unfold insertEntry
    rw [hcomm]
  | trans hp1 _hp2 ih1 ih2 =>
    intro hv t
    have hv2 : noCollisions _ := hv.perm hp1 fun h => ⟨h.2, h.1⟩
    rw [ih1 hv t, ih2 hv2 t]

/-! ## Lemmas about the handshake -/

theorem stepEv_mono (st : ShellState) (e : Event) (h : st.interactive = true) :
    (stepEv st e).interactive = true := by
  cases e <;> simp [stepEv, h]

theorem foldSteps_cons (st : ShellState) (e : Event) (rest : List Event) :
    foldSteps st (e :: rest) = foldSteps (stepEv st e) rest := rfl

theorem foldSteps_mono (evs : List Event) (st : ShellState) (h : st.interactive = true) :
    (foldSteps st evs).interactive = true := by
  induction evs generalizing st with
  | nil => exact h
  | cons e rest ih => exact ih (stepEv st e) (stepEv_mono st e h)

/-- The input sink after a run: whatever was there before, then the
bootstrap command exactly when the marker was observed during the run,
then the keystrokes delivered while interactive, in order. -/
theorem inputSink_char (evs : List Event) :
    ∀ st : ShellState,
      (foldSteps st evs).inputSink
        = st.inputSink
            ++ (if st.interactive = false ∧ (foldSteps st evs).interactive = true
                then [InputWrite.bootstrap bootstrapCmd] else [])
            ++ (acceptedKeys st evs).map InputWrite.keystroke := by
  induction evs with
  | nil =>
    intro st
    cases h : st.interactive <;> simp [foldSteps, acceptedKeys, h]
  | cons e rest ih =>
    intro st
    rw [foldSteps_cons, ih (stepEv st e)]
    cases e with
    | key d =>
      cases h : st.interactive
      · have hstep : stepEv st (.key d) = st := by simp [stepEv, h]
        rw [hstep]
        simp [acceptedKeys, h, hstep, foldSteps_cons]
      · have hstep : stepEv st (.key d)
            = { st with inputSink := st.inputSink ++ [.keystroke d] } := by
          simp [stepEv, h]
        rw [hstep]
        simp [acceptedKeys, h, hstep, foldSteps_cons]
    | out d =>
      cases h : st.interactive
      · cases hF : findOSC d.data with
        | none =>
          have hstep : stepEv st (.out d)
              = { st with displaySink := st.displaySink ++ [d] } := by
            simp [stepEv, h, hF]
          rw [hstep]
          simp [acceptedKeys, h, hstep, foldSteps_cons]
        | some s =>
          by_cases hs : s = "interactive".data
          · have hstep : stepEv st (.out d)
                = { interactive := true,
                    inputSink := st.inputSink ++ [.bootstrap bootstrapCmd],
                    displaySink := st.displaySink ++ [d] } := by
              simp [stepEv, h, hF, hs]
            have hm : (foldSteps (stepEv st (.out d)) rest).interactive = true :=
              foldSteps_mono rest _ (by rw [hstep])
            rw [hstep] at hm ⊢
            simp [acceptedKeys, h, hstep, foldSteps_cons, hm]
          · have hstep : stepEv st (.out d)
                = { st with displaySink := st.displaySink ++ [d] } := by
              simp [stepEv, h, hF, hs]
            rw [hstep]
            simp [acceptedKeys, h, hstep, foldSteps_cons]
      · have hstep : stepEv st (.out d)
            = { st with displaySink := st.displaySink ++ [d] } := by
          simp [stepEv, h]
        rw [hstep]
        simp [acceptedKeys, h, hstep, foldSteps_cons]

theorem acceptedKeys_nil_of_never_ready (evs : List Event) :
    ∀ st, (foldSteps st evs).interactive = false → acceptedKeys st evs = [] := by
  induction evs with
  | nil => intro st _h; rfl
  | cons e rest ih =>
    intro st h
    have h' : (foldSteps (stepEv st e) rest).interactive = false := h
    have hst : st.interactive = false := by
      cases hi : st.interactive
      · rfl
      · rw [foldSteps_mono rest _ (stepEv_mono st e hi)] at h'
        cases h'
    cases e with
    | key d => simp [acceptedKeys, hst, ih _ h']
    | out d => simp [acceptedKeys, ih _ h']

theorem filterMap_key_of_keystrokes (ks : List String) :
    (ks.map InputWrite.keystroke).filterMap keyPayload = ks := by
  induction ks with
  | nil => rfl
  | cons k ks ih => simp [keyPayload, ih]

theorem filterMap_boot_of_keystrokes (ks : List String) :
    (ks.map InputWrite.keystroke).filterMap bootPayload = [] := by
  induction ks with
  | nil => rfl
  | cons k ks ih => simp [bootPayload, ih]

/-- A byte-block `p` occurring at the front. -/
theorem isPrefixOf_self_append (p r : List Char) : p.isPrefixOf (p ++ r) = true := by
  induction p with
  | nil => simp [List.isPrefixOf]
  | cons a p ih => simp [List.isPrefixOf, ih]

/-- A true `isPrefixOf` splits the list. -/
theorem eq_append_drop_of_isPrefixOf {p l : List Char} (h : p.isPrefixOf l = true) :
    l = p ++ l.drop p.length := by
  induction p generalizing l with
  | nil => simp
  | cons a p ih =>
    cases l with
    | nil => simp [List.isPrefixOf] at h
    | cons b l2 =>
      simp only [List.isPrefixOf, Bool.and_eq_true, beq_iff_eq] at h
      obtain ⟨hab, h2⟩ := h
      simpa [hab] using congrArg (b :: ·) (ih h2)

theorem dropWhile_head_false {α : Type} (p : α → Bool) :
    ∀ (l : List α), l.dropWhile p ≠ [] →
      ∃ x ys, l.dropWhile p = x :: ys ∧ p x = false := by
  intro l
  induction l with
  | nil => intro h; simp [List.dropWhile] at h
  | cons a l2 ih =>
    intro h
    cases hpa : p a
    · exact ⟨a, l2, by simp [List.dropWhile, hpa], hpa⟩
    · rw [List.dropWhile_cons_of_pos hpa] at h ⊢
      exact ih h

/-- When the scanner reports a status, the whole marker block
`ESC ]654; status BEL` occurs contiguously in the chunk. -/
theorem findOSC_hasSub : ∀ {l s : List Char}, findOSC l = some s →
    hasSub (oscPre ++ s ++ ['\x07']) l = true := by
  intro l
  induction l with
  | nil => intro s h; simp [findOSC] at h
  | cons c rest ih =>
    intro s h
    rw [findOSC] at h
    by_cases hp : oscPre.isPrefixOf (c :: rest) = true
    · rw [if_pos hp] at h
      simp only [] at h
      by_cases hv : ((((c :: rest).drop oscPre.length).takeWhile (fun ch => ch != '\x07')).isEmpty
          || (((c :: rest).drop oscPre.length).dropWhile (fun ch => ch != '\x07')).isEmpty) = true
      · rw [if_pos hv] at h
        rw [hasSub, ih h]
        simp
      · rw [if_neg hv] at h
        injection h with hs
        have hne : ((c :: rest).drop oscPre.length).dropWhile (fun ch => ch != '\x07') ≠ [] := by
          intro hnil
          apply hv
          simp [hnil]
        obtain ⟨x, ys, hxy, hpx⟩ :=
          dropWhile_head_false (fun ch => ch != '\x07') ((c :: rest).drop oscPre.length) hne
        have hx : x = '\x07' := by
          simpa using hpx
        have hsplit : c :: rest = oscPre ++ (c :: rest).drop oscPre.length :=
          eq_append_drop_of_isPrefixOf hp
        have hdropeq : (c :: rest).drop oscPre.length = s ++ ('\x07' :: ys) := by
          conv_lhs => rw [← List.takeWhile_append_dropWhile (fun ch => ch != '\x07')
            ((c :: rest).drop oscPre.length)]
          rw [hxy, hx, hs]
        have hsplit2 : c :: rest = (oscPre ++ s ++ ['\x07']) ++ ys := by
          rw [hsplit, hdropeq]
          simp
        rw [hasSub, hsplit2, isPrefixOf_self_append]
        simp
    · rw [if_neg hp] at h
      rw [hasSub, ih h]
      simp

/-! ## Lemmas about the document store -/

theorem getDoc_setDoc_self (docs : List (String × EditorDocument)) (k : String)
    (v : EditorDocument) : getDoc (setDoc docs k v) k = some v := by
  induction docs with
  | nil => simp [setDoc, getDoc]
  | cons e rest ih =>
    obtain ⟨k0, v0⟩ := e
    by_cases h : k = k0
    · simp [setDoc, getDoc, h]
    · simp [setDoc, getDoc, h, ih]

theorem getDoc_setDoc_other (docs : List (String × EditorDocument)) (k p : String)
    (v : EditorDocument) (hp : p ≠ k) : getDoc (setDoc docs k v) p = getDoc docs p := by
  induction docs with
  | nil => simp [setDoc, getDoc, hp]
  | cons e rest ih =>
    obtain ⟨k0, v0⟩ := e
    by_cases h : k = k0
    · subst h
      simp [setDoc, getDoc, hp]
    · by_cases h2 : p = k0 <;> simp [setDoc, getDoc, h, h2, ih]

/-! ## Claim theorems -/

/-- C1: a keystroke delivered while the interactive flag is false is
never written to the process input sink, and every keystroke delivered
after the readiness marker has been observed (flag true) is written, in
delivery order: the keystroke writes of the final input sink are exactly
the keystrokes delivered while interactive. -/
theorem C1_gated_input_order (evs : List Event) :
    ((runTrace evs).inputSink).filterMap keyPayload = acceptedKeys initShell evs := by
  have h := inputSink_char evs initShell
  rw [runTrace, h]
  rw [List.filterMap_append, List.filterMap_append, filterMap_key_of_keystrokes]
  have h1 : (initShell.inputSink).filterMap keyPayload = [] := rfl
  have h2 : ((if initShell.interactive = false ∧ (foldSteps initShell evs).interactive = true
      then [InputWrite.bootstrap bootstrapCmd]
      else []) : List InputWrite).filterMap keyPayload = [] := by
    split <;> rfl
  rw [h1, h2]
  simp

/-- C2: the bootstrap command is the first bytes written to the input
sink and is written exactly once: once the marker has been observed, the
head of the byte stream is the bootstrap command and the bootstrap
writes of the log are exactly one; while it has not been observed,
nothing has been written at all. -/
theorem C2_bootstrap_first_and_once (evs : List Event) :
    (((runTrace evs).inputSink).map InputWrite.data).take 1
        = (if (runTrace evs).interactive = true then [bootstrapCmd] else [])
      ∧ ((runTrace evs).inputSink).filterMap bootPayload
        = (if (runTrace evs).interactive = true then [bootstrapCmd] else []) := by
  have h := inputSink_char evs initShell
  rw [runTrace, h]
  cases hi : (foldSteps initShell evs).interactive
  · have hk : acceptedKeys initShell evs = [] := acceptedKeys_nil_of_never_ready evs initShell hi
    rw [hk]
    simp [initShell, hi]
  · simp [initShell, hi, filterMap_boot_of_keystrokes, bootPayload, InputWrite.data]

/-- C4: every output chunk, matched or not, is forwarded unmodified and
in full to the display sink; the example chunk carrying the marker
between `hello` and `world` makes the session interactive and is still
forwarded as one whole literal chunk. -/
theorem C4_chunks_forwarded_unmodified :
    (∀ (st : ShellState) (data : String),
        (stepEv st (.out data)).displaySink = st.displaySink ++ [data])
      ∧ (runTrace [.out "hello\x1b]654;interactive\x07world"]).interactive = true
      ∧ (runTrace [.out "hello\x1b]654;interactive\x07world"]).displaySink
          = ["hello\x1b]654;interactive\x07world"] := by
  refine ⟨?_, rfl, rfl⟩
  intro st data
  cases h : st.interactive
  · cases hF : findOSC data.data with
    | none => simp [stepEv, h, hF]
    | some s =>
      by_cases hs : s = "interactive".data <;> simp [stepEv, h, hF, hs]
  · simp [stepEv, h]

/-- C6: when the scanner extracts a status from an output chunk, a
not-yet-interactive session transitions to interactive iff that status
is the literal `interactive`; with any other status the state is
unchanged apart from the forwarded chunk. -/
theorem C6_status_literal_gates (data : String) (s : List Char) (st : ShellState)
    (hst : st.interactive = false) (hF : findOSC data.data = some s) :
    ((stepEv st (.out data)).interactive = true ↔ s = "interactive".data)
      ∧ (s ≠ "interactive".data →
          stepEv st (.out data) = { st with displaySink := st.displaySink ++ [data] }) := by
  constructor
  · constructor
    · intro h
      by_contra hs
      simp [stepEv, hst, hF, hs] at h
    · intro hs
      simp [stepEv, hst, hF, hs]
  · intro hs
    simp [stepEv, hst, hF, hs]

theorem C6_witness :
    (stepEv initShell (.out "ok\x1b]654;loading\x07")).interactive = true
      ↔ "loading".data = "interactive".data :=
  (C6_status_literal_gates "ok\x1b]654;loading\x07" ("loading".data) initShell rfl rfl).1

/-- C9: the scanner matches the marker only inside a single chunk: when
neither of two consecutive chunks contains the complete marker but their
concatenation does, the session is still not interactive after both
chunks are processed. -/
theorem C9_split_marker_missed (c1 c2 : String)
    (h1 : hasSub interactiveMarker c1.data = false)
    (h2 : hasSub interactiveMarker c2.data = false)
    (_hjoin : hasSub interactiveMarker (c1.data ++ c2.data) = true) :
    (runTrace [.out c1, .out c2]).interactive = false := by
  have key : ∀ (st : ShellState) (c : String), st.interactive = false →
      hasSub interactiveMarker c.data = false →
      (stepEv st (.out c)).interactive = false := by
    intro st c hst hc
    cases hF : findOSC c.data with
    | none => simp [stepEv, hst, hF]
    | some s =>
      by_cases hs : s = "interactive".data
      · exfalso
        have hsub := findOSC_hasSub hF
        rw [hs] at hsub
        rw [show oscPre ++ "interactive".data ++ ['\x07'] = interactiveMarker from rfl] at hsub
        rw [hsub] at hc
        cases hc
      · simp [stepEv, hst, hF, hs]
  exact key (stepEv initShell (.out c1)) c2 (key initShell c1 rfl h1) h2

theorem C9_witness :
    (runTrace [.out "\x1b]654;inter", .out "active\x07"]).interactive = false :=
  C9_split_marker_missed "\x1b]654;inter" "active\x07" rfl rfl rfl

/-- C5 as stated (any two permutations of the same entries, no
precondition) is false of the code: the colliding mapping with entries
`/a/b` and `/a` yields a tree in one iteration order and a runtime error
in the other, so the two permutations do not build equal trees. -/
theorem C5_counterexample_collision_order :
    ([("/a/b", sampleDoc "/a/b" "x"), ("/a", sampleDoc "/a" "y")].Perm
        [("/a", sampleDoc "/a" "y"), ("/a/b", sampleDoc "/a/b" "x")])
      ∧ toFileTree [("/a/b", sampleDoc "/a/b" "x"), ("/a", sampleDoc "/a" "y")]
        ≠ toFileTree [("/a", sampleDoc "/a" "y"), ("/a/b", sampleDoc "/a/b" "x")] := by
  constructor
  · exact List.Perm.swap _ _ _
  · intro h
    have h1 : toFileTree [("/a", sampleDoc "/a" "y"), ("/a/b", sampleDoc "/a/b" "x")]
        = none := rfl
    have h2 : toFileTree [("/a/b", sampleDoc "/a/b" "x"), ("/a", sampleDoc "/a" "y")]
        = some (updT (updT emptyTree "a"
            (.directory (updT emptyTree "b" (.file "x")))) "a" (.file "y")) := rfl
    rw [h1, h2] at h
    exact Option.noConfusion h

/-- C5 amended: two entry lists that are permutations of one another and
satisfy the builder precondition stated by the spec (no duplicate paths,
no path both a file and a directory prefix) build structurally equal
trees. -/
theorem C5_perm_invariant_build (l1 l2 : List (String × EditorDocument))
    (hp : l1.Perm l2) (hv : noCollisions l1) :
    toFileTree l1 = toFileTree l2 :=
  foldIns_perm hp hv emptyTree

theorem C5_witness :
    toFileTree [("/src/index.js", sampleDoc "/src/index.js" "A"),
        ("/pkg.json", sampleDoc "/pkg.json" "B")]
      = toFileTree [("/pkg.json", sampleDoc "/pkg.json" "B"),
          ("/src/index.js", sampleDoc "/src/index.js" "A")] :=
  C5_perm_invariant_build _ _ (by decide) (by decide)

/-- C8: building from the example mapping yields exactly two top-level
entries: directory `src` holding only file `index.js` with contents `A`,
and file `pkg.json` with contents `B`. -/
theorem C8_example_build :
    toFileTree [("/src/index.js", sampleDoc "/src/index.js" "A"),
        ("/pkg.json", sampleDoc "/pkg.json" "B")] = some exampleTree
      ∧ exampleTree "pkg.json" = some (.file "B")
      ∧ (∃ sub, exampleTree "src" = some (.directory sub)
          ∧ sub "index.js" = some (.file "A")
          ∧ ∀ n, n ≠ "index.js" → sub n = none)
      ∧ (∀ n, n ≠ "src" → n ≠ "pkg.json" → exampleTree n = none) := by
  refine ⟨rfl, rfl, ⟨updT emptyTree "index.js" (.file "A"), rfl, rfl, ?_⟩, ?_⟩
  · intro n hn
    simp [updT, emptyTree, hn]
  · intro n h1 h2
    simp [exampleTree, updT, emptyTree, h1, h2]

/-- C3 as stated is false of the code: with the directory form inserted
first, a prefix used both as a file and as a directory is silently
resolved by overwriting the directory with the file, producing a tree
rather than rejecting the input. -/
theorem C3_counterexample_silent_overwrite :
    toFileTree [("/a/b", sampleDoc "/a/b" "x"), ("/a", sampleDoc "/a" "y")]
        = some (updT (updT emptyTree "a"
            (.directory (updT emptyTree "b" (.file "x")))) "a" (.file "y"))
      ∧ (updT (updT emptyTree "a"
            (.directory (updT emptyTree "b" (.file "x")))) "a" (.file "y")) "a"
        = some (.file "y") := by
  exact ⟨rfl, by simp [updT]⟩

/-- C3 amended: the builder does not reject prefix collisions.  When the
longer path comes first, writing the shorter path as a file silently
overwrites the directory created for the prefix (last write wins); in
the opposite order the walk hits the file node and the call aborts with
a runtime type error, not an explicit assertion. -/
theorem C3_amended_collision_behavior (da db : EditorDocument) :
    (∃ t, toFileTree [("/a/b", da), ("/a", db)] = some t
        ∧ t "a" = some (.file db.value))
      ∧ toFileTree [("/a", db), ("/a/b", da)] = none := by
  constructor
  · exact ⟨_, rfl, by simp [updT]⟩
  · rfl

/-- C7: updating a document and reading it back yields the updated
content; exactly one write-through with the same path and content is
dispatched, appended after the synchronous store update has already
taken effect. -/
theorem C7_roundtrip_write (st : StoreState) (path content : String) (d : EditorDocument)
    (hd : getDoc st.documents path = some d) :
    getDoc (onChange st path content).documents path = some { d with value := content }
      ∧ (onChange st path content).fsWrites = st.fsWrites ++ [(path, content)] := by
  refine ⟨?_, rfl⟩
  show getDoc (setDoc st.documents path
    (applyValue (getDoc st.documents path) path content)) path = _
  rw [hd, getDoc_setDoc_self]
  rfl

theorem C7_witness :
    getDoc (onChange { documents := [("/a", sampleDoc "/a" "old")], fsWrites := [] }
        "/a" "new").documents "/a" = some { sampleDoc "/a" "old" with value := "new" }
      ∧ (onChange { documents := [("/a", sampleDoc "/a" "old")], fsWrites := [] }
          "/a" "new").fsWrites = [] ++ [("/a", "new")] :=
  C7_roundtrip_write { documents := [("/a", sampleDoc "/a" "old")], fsWrites := [] }
    "/a" "new" (sampleDoc "/a" "old") rfl

/-- C10: a scroll event changes only the scroll field of the selected
document record: its content value and loading flag are kept, and the
record of every other path is unchanged. -/
theorem C10_scroll_frame (docs : List (String × EditorDocument)) (sel : String)
    (sc : ScrollPosition) (d : EditorDocument) (hd : getDoc docs sel = some d) :
    getDoc (onScroll docs sel sc) sel = some { d with scroll := some sc }
      ∧ ∀ p, p ≠ sel → getDoc (onScroll docs sel sc) p = getDoc docs p := by
  constructor
  · show getDoc (setDoc docs sel (applyScroll (getDoc docs sel) sel sc)) sel = _
    rw [hd, getDoc_setDoc_self]
    rfl
  · intro p hp
    exact getDoc_setDoc_other docs sel p _ hp

theorem C10_witness :
    getDoc (onScroll [("/a", sampleDoc "/a" "v")] "/a" { line := 3, column := 1 }) "/a"
        = some { sampleDoc "/a" "v" with scroll := some { line := 3, column := 1 } }
      ∧ ∀ p, p ≠ "/a" →
          getDoc (onScroll [("/a", sampleDoc "/a" "v")] "/a" { line := 3, column := 1 }) p
            = getDoc [("/a", sampleDoc "/a" "v")] p :=
  C10_scroll_frame [("/a", sampleDoc "/a" "v")] "/a" { line := 3, column := 1 }
    (sampleDoc "/a" "v") rfl

end SimpleEditor
